import Mathlib

/-!
Shallow embedding of the two scripts in `scripts/socket/` of the repository:
`server.py` (bind, listen, accept one connection, recv-decode-print loop,
close both sockets) and `client.py` (connect, sendall one fixed message,
close).  Bytes are modelled as natural numbers below 256, strings as lists
of Unicode code points, and the interaction of each script with the
operating system as a list of events.  The sequence of byte chunks returned
by successive `recv(1024)` calls is the input of the server model; a chunk
of zero bytes models the read that signals that the peer closed.
-/

namespace MiniXmpp

/-- Is `b` a UTF-8 continuation byte (`0x80` to `0xBF`)? -/
def isCont (b : Nat) : Bool := 128 ≤ b && b ≤ 191

/-- One-byte-at-a-time UTF-8 validator and decoder.  `need` is the number
of continuation bytes still expected for the current character, `acc` the
partial code point gathered so far, and `lo`, `hi` bound the very next
byte (the per-lead-byte second-byte restriction of the standard decoder;
after it, the bounds relax to `128`, `191`).  Matches Python strict UTF-8
decoding: overlong encodings, surrogates, code points above `0x10FFFF`,
truncated sequences and stray continuation bytes are all rejected. -/
def utf8Run : Nat → Nat → Nat → Nat → List Nat → Option (List Nat)
  | 0, _, _, _, [] => some []
  | _ + 1, _, _, _, [] => none
  | 0, _, _, _, b :: rest =>
    if b < 128 then (utf8Run 0 0 0 0 rest).map (fun t => b :: t)
    else if b < 194 then none
    else if b ≤ 223 then utf8Run 1 (b - 192) 128 191 rest
    else if b = 224 then utf8Run 2 0 160 191 rest
    else if b = 237 then utf8Run 2 13 128 159 rest
    else if b ≤ 239 then utf8Run 2 (b - 224) 128 191 rest
    else if b = 240 then utf8Run 3 0 144 191 rest
    else if b ≤ 243 then utf8Run 3 (b - 240) 128 191 rest
    else if b = 244 then utf8Run 3 4 128 143 rest
    else none
  | 1, acc, lo, hi, b :: rest =>
    if lo ≤ b ∧ b ≤ hi then
      (utf8Run 0 0 0 0 rest).map (fun t => (acc * 64 + (b - 128)) :: t)
    else none
  | n + 2, acc, lo, hi, b :: rest =>
    if lo ≤ b ∧ b ≤ hi then
      utf8Run (n + 1) (acc * 64 + (b - 128)) 128 191 rest
    else none

/-- Strict UTF-8 decoding of a byte list into a list of code points, as
Python `bytes.decode()` with the default `utf-8` codec and `strict` error
handling.  Returns `none` where Python raises `UnicodeDecodeError`. -/
def utf8Decode (l : List Nat) : Option (List Nat) := utf8Run 0 0 0 0 l

/-- UTF-8 encoding of one code point, as Python `str.encode()`. -/
def utf8EncodeChar (c : Nat) : List Nat :=
  if c < 128 then [c]
  else if c < 2048 then [192 + c / 64, 128 + c % 64]
  else if c < 65536 then [224 + c / 4096, 128 + (c / 64) % 64, 128 + c % 64]
  else [240 + c / 262144, 128 + (c / 4096) % 64, 128 + (c / 64) % 64,
        128 + c % 64]

/-- UTF-8 encoding of a list of code points. -/
def utf8Encode (s : List Nat) : List Nat :=
  s.foldr (fun c acc => utf8EncodeChar c ++ acc) []

/-- Code points of a Lean string, modelling a Python `str` value. -/
def codepoints (s : String) : List Nat := s.toList.map Char.toNat

/-- One observable step of a script: a socket operation, a line written to
standard output, or the uncaught exception that terminates the process.
Sockets are identified by small numbers: in the server, `0` is
`server_socket` and `1` is the accepted `client_socket`; in the client,
`0` is `client_socket`. -/
inductive Event where
  | sockCreate (sid : Nat)
  | bind (sid : Nat) (host : List Nat) (port : Nat)
  | listen (sid : Nat) (backlog : Nat)
  | accept (sid : Nat) (conn : Nat)
  | connect (sid : Nat) (host : List Nat) (port : Nat)
  | recv (sid : Nat) (bufsize : Nat) (data : List Nat)
  | send (sid : Nat) (data : List Nat)
  | close (sid : Nat)
  | print (line : List Nat)
  | crash
deriving DecidableEq

/-- How the `while True` receive loop of `server.py` ends: `done` when a
read of zero bytes made it `break`, `crashed` when a chunk failed UTF-8
decoding and the exception escaped, `starved` when the supplied chunk list
was exhausted with the loop still blocked in `recv` (the loop has not
terminated). -/
inductive Outcome where
  | done
  | crashed
  | starved
deriving DecidableEq

/-- Code points of the constant text in front of each received chunk,
from the print call on line 19 of `server.py`. -/
def receivedTag : List Nat := codepoints "Received message: "

/-- The stdout line the server prints for a decoded chunk `msg`. -/
def formatLine (msg : List Nat) : List Nat := receivedTag ++ msg

/-- Line 8 of `server.py`. -/
def listeningLine : List Nat := codepoints "Listening on port 9292..."

/-- Code points of the constant text of the line printed on line 12 of
`server.py`; the peer address follows it. -/
def connTag : List Nat := codepoints "Connection from "

/-- The address the server binds, line 5 of `server.py`. -/
def serverHost : List Nat := codepoints "0.0.0.0"

/-- The address the client connects to, line 7 of `client.py`. -/
def clientHost : List Nat := codepoints "172.18.0.2"

/-- The fixed message of `client.py` line 11, as code points. -/
def helloServer : List Nat := codepoints "Hello, Server!"

/-- Lines 15 to 19 of `server.py`: repeatedly call `recv(1024)`, decode the
returned chunk as UTF-8, `break` on an empty string, otherwise print the
chunk behind `receivedTag`.  The input list holds the successive chunks the
transport delivers; the result is the list of events of the loop paired
with how it ended. -/
def loopTrace : List (List Nat) → List Event × Outcome
  | [] => ([], Outcome.starved)
  | chunk :: rest =>
    match utf8Decode chunk with
    | none => ([Event.recv 1 1024 chunk, Event.crash], Outcome.crashed)
    | some msg =>
      if msg = [] then
        ([Event.recv 1 1024 chunk], Outcome.done)
      else
        let t := loopTrace rest
        (Event.recv 1 1024 chunk :: Event.print (formatLine msg) :: t.1, t.2)

/-- Lines 4 to 12 of `server.py`: create the socket, bind it to
`(0.0.0.0, 9292)`, listen with backlog 1, print the listening line, accept
one connection, print the peer address `addr`. -/
def serverStart (addr : List Nat) : List Event :=
  [Event.sockCreate 0, Event.bind 0 serverHost 9292, Event.listen 0 1,
   Event.print listeningLine, Event.accept 0 1,
   Event.print (connTag ++ addr)]

/-- Lines 22 and 23 of `server.py`: reached only when the loop ended with
`break`; a crash skips them and a starved loop never gets there. -/
def closingEvents : Outcome → List Event
  | Outcome.done => [Event.close 1, Event.close 0]
  | Outcome.crashed => []
  | Outcome.starved => []

/-- The whole observable run of `server.py` on a peer whose printed address
is `addr` and whose transport delivers the byte chunks `chunks`. -/
def serverTrace (addr : List Nat) (chunks : List (List Nat)) : List Event :=
  serverStart addr ++ (loopTrace chunks).1 ++ closingEvents (loopTrace chunks).2

/-- The whole observable run of `client.py` when the connection succeeds:
create the socket, connect to `(172.18.0.2, 9292)`, send the UTF-8 bytes of
the fixed message with `sendall`, close the socket. -/
def clientTrace : List Event :=
  [Event.sockCreate 0, Event.connect 0 clientHost 9292,
   Event.send 0 (utf8Encode helloServer), Event.close 0]

/-- The chunks handed to `recv` calls in a trace, in order. -/
def recvData (t : List Event) : List (List Nat) :=
  t.filterMap fun e =>
    match e with
    | Event.recv _ _ d => some d
    | _ => none

/-- The stdout lines of a trace, in order. -/
def printedLines (t : List Event) : List (List Nat) :=
  t.filterMap fun e =>
    match e with
    | Event.print l => some l
    | _ => none

/-- The socket identifiers closed in a trace, in order. -/
def closesOf (t : List Event) : List Nat :=
  t.filterMap fun e =>
    match e with
    | Event.close s => some s
    | _ => none

/-- How many `accept` calls a trace contains. -/
def acceptCount (t : List Event) : Nat :=
  (t.filterMap fun e =>
    match e with
    | Event.accept s c => some (s, c)
    | _ => none).length

/-- A chunk the loop passes through silently printing it: nonempty and
valid UTF-8. -/
def GoodChunk (c : List Nat) : Prop := c ≠ [] ∧ (utf8Decode c).isSome

instance : DecidablePred GoodChunk := fun c => by
  unfold GoodChunk; infer_instance

/-- The two loop events a good chunk contributes. -/
def chunkEvents (c : List Nat) : List Event :=
  [Event.recv 1 1024 c, Event.print (formatLine ((utf8Decode c).getD []))]

/-- Bookkeeping for the socket lifecycle: which socket identifiers are
currently open and which have already been closed. -/
structure SockState where
  openIds : List Nat
  closedIds : List Nat
deriving DecidableEq

/-- One step of the socket-lifecycle audit of a trace.  `none` records a
violation: an operation on a socket that is not open, a second close, or
reuse of an identifier. -/
def stepCheck : Option SockState → Event → Option SockState
  | none, _ => none
  | some st, Event.sockCreate sid =>
    if sid ∈ st.openIds ∨ sid ∈ st.closedIds then none
    else some ⟨sid :: st.openIds, st.closedIds⟩
  | some st, Event.bind sid _ _ => if sid ∈ st.openIds then some st else none
  | some st, Event.listen sid _ => if sid ∈ st.openIds then some st else none
  | some st, Event.accept sid conn =>
    if sid ∈ st.openIds ∧ conn ∉ st.openIds ∧ conn ∉ st.closedIds then
      some ⟨conn :: st.openIds, st.closedIds⟩
    else none
  | some st, Event.connect sid _ _ => if sid ∈ st.openIds then some st else none
  | some st, Event.recv sid _ _ => if sid ∈ st.openIds then some st else none
  | some st, Event.send sid _ => if sid ∈ st.openIds then some st else none
  | some st, Event.close sid =>
    if sid ∈ st.openIds then some ⟨st.openIds.erase sid, sid :: st.closedIds⟩
    else none
  | some st, Event.print _ => some st
  | some st, Event.crash => some st

/-- A trace respects the socket lifecycle when every operation happens on
an open socket, no socket is closed twice, and every socket that was
opened has been closed by the end of the trace. -/
def checkTrace (t : List Event) : Bool :=
  match t.foldl stepCheck (some ⟨[], []⟩) with
  | some st => st.openIds.isEmpty
  | none => false

/-- The first 1024 bytes of an ASCII text whose 1024th byte starts a
two-byte character: 1023 letters a and the lead byte of the letter e with
acute accent. -/
def splitChunkA : List Nat := List.replicate 1023 97 ++ [195]

/-- The continuation byte finishing that character, delivered in the next
chunk. -/
def splitChunkB : List Nat := [169]

/-! ### Decoder lemmas -/

theorem utf8Decode_nil : utf8Decode [] = some [] := rfl

/-- While continuation bytes are still pending, the run never returns the
empty string: it either fails or completes the character and prepends it. -/
theorem utf8Run_pending_ne_some_nil :
    ∀ (l : List Nat) (n acc lo hi : Nat), utf8Run (n + 1) acc lo hi l ≠ some [] := by
  intro l
  induction l with
  | nil =>
    intro n acc lo hi
    cases n <;> simp [utf8Run]
  | cons b rest ih =>
    intro n acc lo hi
    cases n with
    | zero =>
      simp only [utf8Run]
      split
      · intro hm
        obtain ⟨t, _, h2⟩ := Option.map_eq_some'.mp hm
        exact List.cons_ne_nil _ _ h2
      · simp
    | succ k =>
      simp only [utf8Run]
      split
      · exact ih k _ _ _
      · simp

/-- Decoding a nonempty byte list never yields the empty string: every
successful step contributes at least one code point.  Hence the emptiness
test on line 17 of `server.py` fires exactly on a zero-byte read. -/
theorem utf8Decode_cons_ne_some_nil (b : Nat) (r : List Nat) :
    utf8Decode (b :: r) ≠ some [] := by
  simp only [utf8Decode, utf8Run]
  repeat' split
  all_goals intro hm
  all_goals try exact Option.noConfusion hm
  all_goals try exact utf8Run_pending_ne_some_nil r 0 _ _ _ hm
  all_goals try exact utf8Run_pending_ne_some_nil r 1 _ _ _ hm
  all_goals try exact utf8Run_pending_ne_some_nil r 2 _ _ _ hm
  all_goals obtain ⟨t, _, h2⟩ := Option.map_eq_some'.mp hm
  all_goals exact List.cons_ne_nil _ _ h2

/-- A chunk decodes to the empty string exactly when it is empty. -/
theorem utf8Decode_eq_some_nil_iff (c : List Nat) :
    utf8Decode c = some [] ↔ c = [] := by
  cases c with
  | nil => simp [utf8Decode_nil]
  | cons b r =>
    simp only [List.cons_ne_nil, iff_false]
    exact utf8Decode_cons_ne_some_nil b r

/-! ### Receive-loop lemmas -/

theorem loopTrace_nil : loopTrace [] = ([], Outcome.starved) := rfl

/-- A chunk that fails to decode: the exception escapes the loop. -/
theorem loopTrace_cons_none {c : List Nat} (h : utf8Decode c = none)
    (rest : List (List Nat)) :
    loopTrace (c :: rest) = ([Event.recv 1 1024 c, Event.crash], Outcome.crashed) := by
  simp [loopTrace, h]

/-- A chunk that decodes to the empty string makes the loop `break`. -/
theorem loopTrace_cons_some_nil {c : List Nat} (h : utf8Decode c = some [])
    (rest : List (List Nat)) :
    loopTrace (c :: rest) = ([Event.recv 1 1024 c], Outcome.done) := by
  simp [loopTrace, h]

/-- A chunk that decodes to a nonempty string is printed and the loop
continues with the remaining chunks. -/
theorem loopTrace_cons_some {c : List Nat} {m : List Nat}
    (h : utf8Decode c = some m) (hm : m ≠ []) (rest : List (List Nat)) :
    loopTrace (c :: rest)
      = (Event.recv 1 1024 c :: Event.print (formatLine m) :: (loopTrace rest).1,
         (loopTrace rest).2) := by
  simp [loopTrace, h, hm]

/-- Processing a run of good chunks only prepends their recv and print
events; the outcome is decided by the rest of the stream. -/
theorem loopTrace_good_append (pre tail : List (List Nat))
    (hg : ∀ c ∈ pre, GoodChunk c) :
    loopTrace (pre ++ tail)
      = ((pre.map chunkEvents).flatten ++ (loopTrace tail).1, (loopTrace tail).2) := by
  induction pre with
  | nil => simp
  | cons c pr ih =>
    obtain ⟨hne, hs⟩ := hg c (List.mem_cons_self c pr)
    obtain ⟨m, hm⟩ := Option.isSome_iff_exists.mp hs
    have hmne : m ≠ [] := by
      intro h0
      exact hne ((utf8Decode_eq_some_nil_iff c).mp (h0 ▸ hm))
    rw [List.cons_append, loopTrace_cons_some hm hmne,
        ih (fun d hd => hg d (List.mem_cons_of_mem c hd))]
    simp [chunkEvents, hm]

/-- The chunks read from a run of good chunks are exactly those chunks. -/
theorem recvData_chunkEvents (pre : List (List Nat)) :
    recvData (pre.map chunkEvents).flatten = pre := by
  induction pre with
  | nil => rfl
  | cons c pr ih =>
    rw [List.map_cons, List.flatten_cons,
        show recvData (chunkEvents c ++ (List.map chunkEvents pr).flatten)
            = recvData (chunkEvents c) ++ recvData (List.map chunkEvents pr).flatten
          from List.filterMap_append _ _ _, ih]
    rfl

/-- The lines printed for a run of good chunks: one line per chunk, the
tag followed by the decoded chunk. -/
theorem printedLines_chunkEvents (pre : List (List Nat)) :
    printedLines (pre.map chunkEvents).flatten
      = pre.map (fun c => formatLine ((utf8Decode c).getD [])) := by
  induction pre with
  | nil => rfl
  | cons c pr ih =>
    rw [List.map_cons, List.flatten_cons,
        show printedLines (chunkEvents c ++ (List.map chunkEvents pr).flatten)
            = printedLines (chunkEvents c) ++ printedLines (List.map chunkEvents pr).flatten
          from List.filterMap_append _ _ _, ih]
    rfl

/-- No close events ever come out of the receive loop. -/
theorem closesOf_chunkEvents (pre : List (List Nat)) :
    closesOf (pre.map chunkEvents).flatten = [] := by
  induction pre with
  | nil => rfl
  | cons c pr ih =>
    rw [List.map_cons, List.flatten_cons,
        show closesOf (chunkEvents c ++ (List.map chunkEvents pr).flatten)
            = closesOf (chunkEvents c) ++ closesOf (List.map chunkEvents pr).flatten
          from List.filterMap_append _ _ _, ih]
    rfl

/-- Every event of the receive loop is a 1024-byte `recv` on the accepted
socket, a print, or the crash. -/
theorem loopTrace_events_shape (chunks : List (List Nat)) :
    ∀ e ∈ (loopTrace chunks).1,
      (∃ d, e = Event.recv 1 1024 d) ∨ (∃ l, e = Event.print l) ∨ e = Event.crash := by
  induction chunks with
  | nil => simp [loopTrace_nil]
  | cons c rest ih =>
    intro e he
    cases h : utf8Decode c with
    | none =>
      rw [loopTrace_cons_none h] at he
      simp only [List.mem_cons, List.not_mem_nil, or_false] at he
      rcases he with rfl | rfl
      · exact Or.inl ⟨c, rfl⟩
      · exact Or.inr (Or.inr rfl)
    | some m =>
      by_cases hm : m = []
      · subst hm
        rw [loopTrace_cons_some_nil h] at he
        simp only [List.mem_cons, List.not_mem_nil, or_false] at he
        subst he
        exact Or.inl ⟨c, rfl⟩
      · rw [loopTrace_cons_some h hm] at he
        simp only [List.mem_cons] at he
        rcases he with rfl | rfl | he
        · exact Or.inl ⟨c, rfl⟩
        · exact Or.inr (Or.inl ⟨formatLine m, rfl⟩)
        · exact ih e he

/-- If every delivered chunk decodes, the loop never crashes: it breaks on
an empty read or keeps waiting. -/
theorem loopTrace_no_crash (chunks : List (List Nat))
    (h : ∀ c ∈ chunks, (utf8Decode c).isSome) :
    (loopTrace chunks).2 ≠ Outcome.crashed := by
  induction chunks with
  | nil => simp [loopTrace_nil]
  | cons c rest ih =>
    obtain ⟨m, hm⟩ := Option.isSome_iff_exists.mp (h c (List.mem_cons_self c rest))
    by_cases hnil : m = []
    · subst hnil
      rw [loopTrace_cons_some_nil hm]
      simp
    · rw [loopTrace_cons_some hm hnil]
      exact ih (fun d hd => h d (List.mem_cons_of_mem c hd))

/-- The loop has stopped running (by `break` or by the uncaught decode
exception) exactly when some delivered chunk is empty or fails to decode;
with only nonempty well-decoding chunks it stays blocked in `recv`. -/
theorem loopTrace_stops_iff (chunks : List (List Nat)) :
    (loopTrace chunks).2 ≠ Outcome.starved
      ↔ ∃ c ∈ chunks, c = [] ∨ utf8Decode c = none := by
  induction chunks with
  | nil => simp [loopTrace_nil]
  | cons c rest ih =>
    cases h : utf8Decode c with
    | none =>
      rw [loopTrace_cons_none h]
      simp only [List.mem_cons]
      constructor
      · intro _
        exact ⟨c, Or.inl rfl, Or.inr h⟩
      · intro _
        simp
    | some m =>
      by_cases hnil : m = []
      · subst hnil
        have hc : c = [] := (utf8Decode_eq_some_nil_iff c).mp h
        rw [loopTrace_cons_some_nil h]
        simp only [List.mem_cons]
        constructor
        · intro _
          exact ⟨c, Or.inl rfl, Or.inl hc⟩
        · intro _
          simp
      · have hc : c ≠ [] := by
          intro h0
          subst h0
          exact hnil (Option.some.inj (h.symm.trans utf8Decode_nil))
        rw [loopTrace_cons_some h hnil]
        simp only [List.mem_cons]
        rw [ih]
        constructor
        · rintro ⟨d, hd, hor⟩
          exact ⟨d, Or.inr hd, hor⟩
        · rintro ⟨d, hd, hor⟩
          rcases hd with rfl | hd
          · rcases hor with h0 | h0
            · exact absurd h0 hc
            · rw [h] at h0
              exact Option.noConfusion h0
          · exact ⟨d, hd, hor⟩


/-! ### Socket lifecycle lemmas -/

/-- Every event the receive loop emits leaves the audit state unchanged,
as long as the accepted socket is open. -/
theorem foldl_stepCheck_loopEvents (chunks : List (List Nat)) (st : SockState)
    (h1 : 1 ∈ st.openIds) :
    List.foldl stepCheck (some st) (loopTrace chunks).1 = some st := by
  induction chunks with
  | nil => rfl
  | cons c rest ih =>
    cases hd : utf8Decode c with
    | none =>
      rw [loopTrace_cons_none hd]
      simp [stepCheck, h1]
    | some m =>
      by_cases hnil : m = []
      · subst hnil
        rw [loopTrace_cons_some_nil hd]
        simp [stepCheck, h1]
      · rw [loopTrace_cons_some hd hnil]
        simp only [List.foldl_cons]
        rw [show stepCheck (some st) (Event.recv 1 1024 c) = some st by
              simp [stepCheck, h1],
            show stepCheck (some st) (Event.print (formatLine m)) = some st by
              simp [stepCheck]]
        exact ih

/-- Auditing the startup events leaves both sockets open and none closed. -/
theorem foldl_stepCheck_serverStart (addr : List Nat) :
    List.foldl stepCheck (some ⟨[], []⟩) (serverStart addr) = some ⟨[1, 0], []⟩ := rfl

theorem closesOf_serverStart (addr : List Nat) : closesOf (serverStart addr) = [] := rfl

theorem recvData_serverStart (addr : List Nat) : recvData (serverStart addr) = [] := rfl

theorem printedLines_serverStart (addr : List Nat) :
    printedLines (serverStart addr) = [listeningLine, connTag ++ addr] := rfl

/-- The receive loop performs no `accept`. -/
theorem loopTrace_no_accept (chunks : List (List Nat)) :
    ((loopTrace chunks).1.filterMap fun e =>
      match e with
      | Event.accept s c => some (s, c)
      | _ => none) = [] := by
  rw [List.filterMap_eq_nil_iff]
  intro e he
  rcases loopTrace_events_shape chunks e he with ⟨d, rfl⟩ | ⟨l, rfl⟩ | rfl <;> rfl

/-- The receive loop closes nothing. -/
theorem closesOf_loopTrace (chunks : List (List Nat)) :
    closesOf (loopTrace chunks).1 = [] := by
  rw [closesOf, List.filterMap_eq_nil_iff]
  intro e he
  rcases loopTrace_events_shape chunks e he with ⟨d, rfl⟩ | ⟨l, rfl⟩ | rfl <;> rfl

/-- Whatever the input stream, a run of the server calls `accept` exactly
once. -/
theorem acceptCount_serverTrace (addr : List Nat) (chunks : List (List Nat)) :
    acceptCount (serverTrace addr chunks) = 1 := by
  rw [serverTrace, acceptCount, List.filterMap_append, List.filterMap_append,
      loopTrace_no_accept]
  have hclose : (closingEvents (loopTrace chunks).2).filterMap (fun e =>
      match e with
      | Event.accept s c => some (s, c)
      | _ => none) = [] := by
    cases (loopTrace chunks).2 <;> rfl
  rw [hclose]
  rfl

/-- Decoding an ASCII byte consumes just that byte. -/
theorem utf8Decode_ascii_cons (b : Nat) (hb : b < 128) (r : List Nat) :
    utf8Decode (b :: r) = (utf8Decode r).map (fun t => b :: t) := by
  simp [utf8Decode, utf8Run, hb]

/-- Decoding commutes with stripping a leading run of ASCII bytes. -/
theorem utf8Decode_replicate_ascii_append (a : Nat) (ha : a < 128) :
    ∀ (n : Nat) (l : List Nat),
      utf8Decode (List.replicate n a ++ l)
        = (utf8Decode l).map (fun t => List.replicate n a ++ t) := by
  intro n
  induction n with
  | zero =>
    intro l
    simp only [List.replicate, List.nil_append]
    cases utf8Decode l <;> simp
  | succ k ih =>
    intro l
    rw [List.replicate_succ, List.cons_append, utf8Decode_ascii_cons a ha, ih]
    cases utf8Decode l <;> simp [List.replicate_succ]

/-- The receive part of the trace splits over concatenation. -/
theorem recvData_append (a b : List Event) :
    recvData (a ++ b) = recvData a ++ recvData b :=
  List.filterMap_append _ _ _

/-- Printed lines split over concatenation. -/
theorem printedLines_append (a b : List Event) :
    printedLines (a ++ b) = printedLines a ++ printedLines b :=
  List.filterMap_append _ _ _

/-- Closes split over concatenation. -/
theorem closesOf_append (a b : List Event) :
    closesOf (a ++ b) = closesOf a ++ closesOf b :=
  List.filterMap_append _ _ _

/-- Full shape of the loop on good chunks followed by a zero-byte read. -/
theorem loopTrace_good_done (pre rest : List (List Nat))
    (hg : ∀ c ∈ pre, GoodChunk c) :
    loopTrace (pre ++ [] :: rest)
      = ((pre.map chunkEvents).flatten ++ [Event.recv 1 1024 []], Outcome.done) := by
  rw [loopTrace_good_append pre ([] :: rest) hg,
      loopTrace_cons_some_nil utf8Decode_nil rest]

/-- The lines the loop prints on good chunks followed by a zero-byte read:
one line per chunk. -/
theorem printedLines_loop_good (pre rest : List (List Nat))
    (hg : ∀ c ∈ pre, GoodChunk c) :
    printedLines (loopTrace (pre ++ [] :: rest)).1
      = pre.map (fun c => formatLine ((utf8Decode c).getD [])) := by
  rw [loopTrace_good_done pre rest hg]
  rw [show printedLines ((pre.map chunkEvents).flatten ++ [Event.recv 1 1024 []])
        = printedLines (pre.map chunkEvents).flatten
            ++ printedLines [Event.recv 1 1024 []]
      from List.filterMap_append _ _ _, printedLines_chunkEvents]
  simp [printedLines]

/-- Every received-message line opens with code point 82, the letter R. -/
theorem formatLine_take_one (msg : List Nat) : (formatLine msg).take 1 = [82] := rfl

theorem listeningLine_take_one : listeningLine.take 1 = [76] := rfl

theorem connLine_take_one (addr : List Nat) : (connTag ++ addr).take 1 = [67] := rfl

/-! ### Claims -/


/-- Claim C1: on a stream that delivers nonempty well-decoding chunks and
then a zero-byte read, the server reads with a 1024-byte bound on every
`recv` call, decodes each chunk as UTF-8, prints one tagged line per
nonempty chunk, and stops reading exactly at the zero-byte read: the data
read is the given chunks followed by the empty chunk and nothing further. -/
theorem claim_C1_recv_decode_print_stop (pre rest : List (List Nat))
    (hgood : ∀ c ∈ pre, GoodChunk c)
    (hwf : ∀ c ∈ pre, c.length ≤ 1024) :
    (loopTrace (pre ++ [] :: rest)).2 = Outcome.done ∧
    recvData (loopTrace (pre ++ [] :: rest)).1 = pre ++ [[]] ∧
    (∀ d ∈ recvData (loopTrace (pre ++ [] :: rest)).1, d.length ≤ 1024) ∧
    (∀ e ∈ (loopTrace (pre ++ [] :: rest)).1, ∀ s b d,
        e = Event.recv s b d → s = 1 ∧ b = 1024) ∧
    printedLines (loopTrace (pre ++ [] :: rest)).1
      = pre.map (fun c => formatLine ((utf8Decode c).getD [])) := by
  have htail : loopTrace ([] :: rest) = ([Event.recv 1 1024 []], Outcome.done) :=
    loopTrace_cons_some_nil utf8Decode_nil rest
  have hl := loopTrace_good_append pre ([] :: rest) hgood
  rw [htail] at hl
  have hrecv : recvData (loopTrace (pre ++ [] :: rest)).1 = pre ++ [[]] := by
    rw [hl,
        show recvData ((pre.map chunkEvents).flatten ++ [Event.recv 1 1024 []])
            = recvData (pre.map chunkEvents).flatten
                ++ recvData [Event.recv 1 1024 []]
          from List.filterMap_append _ _ _,
        recvData_chunkEvents]
    rfl
  refine ⟨by rw [hl], hrecv, ?_, ?_, ?_⟩
  · intro d hd
    rw [hrecv] at hd
    rcases List.mem_append.mp hd with h | h
    · exact hwf d h
    · simp only [List.mem_cons, List.not_mem_nil, or_false] at h
      subst h
      simp
  · intro e he s b d hee
    rcases loopTrace_events_shape (pre ++ [] :: rest) e he with ⟨d2, rfl⟩ | ⟨l, rfl⟩ | rfl
    · rw [Event.recv.injEq] at hee
      exact ⟨hee.1.symm, hee.2.1.symm⟩
    · exact Event.noConfusion hee
    · exact Event.noConfusion hee
  · rw [hl,
        show printedLines ((pre.map chunkEvents).flatten ++ [Event.recv 1 1024 []])
            = printedLines (pre.map chunkEvents).flatten
                ++ printedLines [Event.recv 1 1024 []]
          from List.filterMap_append _ _ _,
        printedLines_chunkEvents]
    simp [printedLines]

theorem claim_C1_witness :
    (loopTrace ([[72, 105]] ++ [] :: [])).2 = Outcome.done :=
  (claim_C1_recv_decode_print_stop [[72, 105]] [] (by decide) (by decide)).1

/-- Claim C2: when the server receives the UTF-8 bytes of the fixed client
message in one chunk before the peer closes, its standard output contains
the line made of the received tag followed by the message, and that print
happens strictly before the accepted connection is closed. -/
theorem claim_C2_hello_line_before_close (addr : List Nat) :
    ∃ l1 l2, serverTrace addr [utf8Encode helloServer, []]
        = l1 ++ Event.print (formatLine helloServer) :: l2 ∧
      Event.close 1 ∈ l2 := by
  have hloop : loopTrace [utf8Encode helloServer, []]
      = ([Event.recv 1 1024 (utf8Encode helloServer),
          Event.print (formatLine helloServer), Event.recv 1 1024 []],
         Outcome.done) := by decide
  refine ⟨serverStart addr ++ [Event.recv 1 1024 (utf8Encode helloServer)],
          [Event.recv 1 1024 [], Event.close 1, Event.close 0], ?_, by simp⟩
  rw [serverTrace, hloop]
  simp [closingEvents]

theorem claim_C2_witness :
    ∃ l1 l2, serverTrace [] [utf8Encode helloServer, []]
        = l1 ++ Event.print (formatLine helloServer) :: l2 ∧
      Event.close 1 ∈ l2 :=
  claim_C2_hello_line_before_close []

/-- Claim C3: the client connects to `(172.18.0.2, 9292)`, performs exactly
one send, whose payload is the complete UTF-8 encoding of the fixed
message, and its run is exactly create, connect, send, close: nothing is
sent afterwards and the socket is closed at the end. -/
theorem claim_C3_client_contract :
    (clientTrace.filterMap fun e =>
        match e with
        | Event.send _ d => some d
        | _ => none) = [utf8Encode (codepoints "Hello, Server!")] ∧
    Event.connect 0 (codepoints "172.18.0.2") 9292 ∈ clientTrace ∧
    clientTrace = [Event.sockCreate 0, Event.connect 0 clientHost 9292,
                   Event.send 0 (utf8Encode helloServer), Event.close 0] :=
  ⟨rfl, List.mem_cons_of_mem _ (List.mem_cons_self _ _), rfl⟩

/-- Claim C4: if the very first read returns zero bytes, the server prints
no received-message line at all, and the run ends cleanly with the close
of the accepted connection followed by the close of the listening
socket. -/
theorem claim_C4_empty_first_read (addr : List Nat) (rest : List (List Nat)) :
    serverTrace addr ([] :: rest)
      = serverStart addr ++ [Event.recv 1 1024 [], Event.close 1, Event.close 0] ∧
    (∀ msg, Event.print (formatLine msg) ∉ serverTrace addr ([] :: rest)) := by
  have hloop : loopTrace ([] :: rest) = ([Event.recv 1 1024 []], Outcome.done) :=
    loopTrace_cons_some_nil utf8Decode_nil rest
  have heq : serverTrace addr ([] :: rest)
      = serverStart addr ++ [Event.recv 1 1024 [], Event.close 1, Event.close 0] := by
    rw [serverTrace, hloop]
    simp [closingEvents]
  refine ⟨heq, ?_⟩
  intro msg hmem
  rw [heq] at hmem
  rcases List.mem_append.mp hmem with h | h
  · rw [serverStart] at h
    simp only [List.mem_cons, List.not_mem_nil, or_false] at h
    rcases h with h | h | h | h | h | h
    · exact Event.noConfusion h
    · exact Event.noConfusion h
    · exact Event.noConfusion h
    · have h2 : List.take 1 (formatLine msg) = List.take 1 listeningLine :=
        congrArg (List.take 1) (Event.print.inj h)
      rw [formatLine_take_one, listeningLine_take_one] at h2
      exact absurd h2 (by decide)
    · exact Event.noConfusion h
    · have h2 : List.take 1 (formatLine msg) = List.take 1 (connTag ++ addr) :=
        congrArg (List.take 1) (Event.print.inj h)
      rw [formatLine_take_one, connLine_take_one] at h2
      exact absurd h2 (by decide)
  · simp only [List.mem_cons, List.not_mem_nil, or_false] at h
    rcases h with h | h | h
    · exact Event.noConfusion h
    · exact Event.noConfusion h
    · exact Event.noConfusion h

theorem claim_C4_witness :
    serverTrace [] ([] :: [])
      = serverStart [] ++ [Event.recv 1 1024 [], Event.close 1, Event.close 0] :=
  (claim_C4_empty_first_read [] []).1

/-- Claim C5: a message whose bytes exceed 1024 arrives as several chunks
of at most 1024 bytes; the server prints one received-message line per
chunk, with no reassembly: at least two lines appear, and line `i` holds
exactly the decoding of chunk `i`. -/
theorem claim_C5_long_message_one_line_per_chunk (pre rest : List (List Nat))
    (hgood : ∀ c ∈ pre, GoodChunk c)
    (hwf : ∀ c ∈ pre, c.length ≤ 1024)
    (hlong : 1024 < (pre.map List.length).sum) :
    printedLines (loopTrace (pre ++ [] :: rest)).1
      = pre.map (fun c => formatLine ((utf8Decode c).getD [])) ∧
    (printedLines (loopTrace (pre ++ [] :: rest)).1).length = pre.length ∧
    2 ≤ (printedLines (loopTrace (pre ++ [] :: rest)).1).length := by
  have hp := printedLines_loop_good pre rest hgood
  have hlen : (printedLines (loopTrace (pre ++ [] :: rest)).1).length = pre.length := by
    rw [hp, List.length_map]
  refine ⟨hp, hlen, ?_⟩
  rw [hlen]
  rcases pre with _ | ⟨c, _ | ⟨d, pr⟩⟩
  · simp at hlong
  · have hc := hwf c (List.mem_cons_self c [])
    simp at hlong
    omega
  · simp [List.length_cons]

theorem claim_C5_witness :
    2 ≤ (printedLines
          (loopTrace ([List.replicate 1024 97, [98]] ++ [] :: [])).1).length := by
  have hA : utf8Decode (List.replicate 1024 97) = some (List.replicate 1024 97) := by
    rw [show List.replicate 1024 97 = List.replicate 1024 97 ++ [] from
          (List.append_nil _).symm,
        utf8Decode_replicate_ascii_append 97 (by decide) 1024 []]
    rfl
  refine (claim_C5_long_message_one_line_per_chunk
      [List.replicate 1024 97, [98]] [] ?_ ?_ ?_).2.2
  · intro c hc
    simp only [List.mem_cons, List.not_mem_nil, or_false] at hc
    rcases hc with rfl | rfl
    · refine ⟨List.ne_nil_of_length_pos ?_, by rw [hA]; rfl⟩
      rw [List.length_replicate]
      decide
    · exact ⟨by decide, by decide⟩
  · intro c hc
    simp only [List.mem_cons, List.not_mem_nil, or_false] at hc
    rcases hc with rfl | rfl
    · rw [List.length_replicate]
    · decide
  · simp only [List.map_cons, List.map_nil, List.sum_cons, List.sum_nil,
      List.length_replicate]
    decide

/-- Claim C6: a chunk that is not valid UTF-8 makes the decode exception
escape: the loop ends crashed, the failing chunk is the last one read,
only the chunks before it were printed, the trace ends at the crash, and
no socket is ever closed. -/
theorem claim_C6_decode_error_fatal (addr : List Nat) (pre : List (List Nat))
    (bad : List Nat) (rest : List (List Nat))
    (hg : ∀ c ∈ pre, GoodChunk c) (hb : utf8Decode bad = none) :
    (loopTrace (pre ++ bad :: rest)).2 = Outcome.crashed ∧
    recvData (loopTrace (pre ++ bad :: rest)).1 = pre ++ [bad] ∧
    printedLines (loopTrace (pre ++ bad :: rest)).1
      = pre.map (fun c => formatLine ((utf8Decode c).getD [])) ∧
    List.IsSuffix [Event.crash] (serverTrace addr (pre ++ bad :: rest)) ∧
    closesOf (serverTrace addr (pre ++ bad :: rest)) = [] := by
  have hl : loopTrace (pre ++ bad :: rest)
      = ((pre.map chunkEvents).flatten
          ++ [Event.recv 1 1024 bad, Event.crash], Outcome.crashed) := by
    rw [loopTrace_good_append pre (bad :: rest) hg, loopTrace_cons_none hb]
  refine ⟨by rw [hl], ?_, ?_, ?_, ?_⟩
  · rw [hl]
    rw [show recvData ((pre.map chunkEvents).flatten
            ++ [Event.recv 1 1024 bad, Event.crash])
          = recvData (pre.map chunkEvents).flatten
              ++ recvData [Event.recv 1 1024 bad, Event.crash]
        from List.filterMap_append _ _ _, recvData_chunkEvents]
    rfl
  · rw [hl]
    rw [show printedLines ((pre.map chunkEvents).flatten
            ++ [Event.recv 1 1024 bad, Event.crash])
          = printedLines (pre.map chunkEvents).flatten
              ++ printedLines [Event.recv 1 1024 bad, Event.crash]
        from List.filterMap_append _ _ _, printedLines_chunkEvents]
    simp [printedLines]
  · refine ⟨serverStart addr ++ ((pre.map chunkEvents).flatten
      ++ [Event.recv 1 1024 bad]), ?_⟩
    rw [serverTrace, hl]
    simp [closingEvents, List.append_assoc]
  · rw [serverTrace, closesOf_append, closesOf_append, closesOf_serverStart, hl]
    rw [show closesOf ((pre.map chunkEvents).flatten
            ++ [Event.recv 1 1024 bad, Event.crash])
          = closesOf (pre.map chunkEvents).flatten
              ++ closesOf [Event.recv 1 1024 bad, Event.crash]
        from List.filterMap_append _ _ _, closesOf_chunkEvents]
    rfl

theorem claim_C6_witness :
    (loopTrace ([] ++ [128] :: [])).2 = Outcome.crashed :=
  (claim_C6_decode_error_fatal [] [] [128] [] (by decide) (by decide)).1

/-- Claim C7 counterexample: in the server run whose single delivered
chunk is the invalid byte 128, the accepted socket receives data, yet the
run contains no close at all: neither socket is closed exactly once
afterwards, refuting the claim for this execution. -/
theorem claim_C7_counterexample :
    Event.recv 1 1024 [128] ∈ serverTrace [] [[128]] ∧
    closesOf (serverTrace [] [[128]]) = [] := by decide

/-- Claim C7 as amended: in every execution that does not end in the
uncaught decode exception, every bind, listen, accept, connect, send and
receive happens on an open socket, every opened socket is closed exactly
once afterwards, and the server closes the accepted connection before the
listening socket. -/
theorem claim_C7_amended_socket_discipline :
    (checkTrace clientTrace = true ∧ closesOf clientTrace = [0]) ∧
    ∀ addr chunks, (loopTrace chunks).2 = Outcome.done →
      checkTrace (serverTrace addr chunks) = true ∧
      closesOf (serverTrace addr chunks) = [1, 0] := by
  refine ⟨⟨by decide, rfl⟩, ?_⟩
  intro addr chunks hdone
  constructor
  · rw [checkTrace, serverTrace, List.foldl_append, List.foldl_append,
        foldl_stepCheck_serverStart,
        foldl_stepCheck_loopEvents chunks ⟨[1, 0], []⟩ (by decide), hdone]
    rfl
  · rw [serverTrace, closesOf_append, closesOf_append, closesOf_serverStart,
        closesOf_loopTrace, hdone]
    rfl

theorem claim_C7_amended_witness :
    checkTrace (serverTrace [] [[]]) = true ∧
    closesOf (serverTrace [] [[]]) = [1, 0] :=
  claim_C7_amended_socket_discipline.2 [] [[]] (by decide)

/-- Claim C8: whatever the input stream, the server calls `accept` exactly
once; and when the read loop ends by its `break`, the run finishes with
exactly the close of the accepted connection and the close of the
listening socket. -/
theorem claim_C8_accept_once (addr : List Nat) (chunks : List (List Nat)) :
    acceptCount (serverTrace addr chunks) = 1 ∧
    ((loopTrace chunks).2 = Outcome.done →
      List.IsSuffix [Event.close 1, Event.close 0] (serverTrace addr chunks)) := by
  refine ⟨acceptCount_serverTrace addr chunks, ?_⟩
  intro hdone
  refine ⟨serverStart addr ++ (loopTrace chunks).1, ?_⟩
  rw [serverTrace, hdone]
  simp [closingEvents, List.append_assoc]

theorem claim_C8_witness :
    List.IsSuffix [Event.close 1, Event.close 0] (serverTrace [] [[]]) :=
  (claim_C8_accept_once [] [[]]).2 (by decide)

/-- Claim C9: the concatenation of the two chunks is valid UTF-8, but the
first chunk alone, cut at the 1024-byte boundary inside the character, is
not, so the server crashes on it; and chunk-by-chunk printing never
crashes exactly when every individual chunk decodes on its own. -/
theorem claim_C9_split_character_crash :
    splitChunkA.length = 1024 ∧
    utf8Decode (splitChunkA ++ splitChunkB)
      = some (List.replicate 1023 97 ++ [233]) ∧
    utf8Decode splitChunkA = none ∧
    (loopTrace [splitChunkA, splitChunkB, []]).2 = Outcome.crashed ∧
    (∀ chunks, (∀ c ∈ chunks, (utf8Decode c).isSome) →
      (loopTrace chunks).2 ≠ Outcome.crashed) := by
  have hA : utf8Decode splitChunkA = none := by
    rw [splitChunkA, utf8Decode_replicate_ascii_append 97 (by decide) 1023 [195]]
    rfl
  refine ⟨?_, ?_, hA, ?_, loopTrace_no_crash⟩
  · rw [splitChunkA, List.length_append, List.length_replicate]
    decide
  · rw [splitChunkA, splitChunkB, List.append_assoc,
        utf8Decode_replicate_ascii_append 97 (by decide) 1023 ([195] ++ [169])]
    rfl
  · rw [loopTrace_cons_none hA]

theorem claim_C9_witness :
    (loopTrace [[104, 105]]).2 ≠ Outcome.crashed :=
  claim_C9_split_character_crash.2.2.2.2 [[104, 105]] (by decide)

/-- Claim C10 counterexample: on the stream whose only chunk is the
invalid byte 128 the loop stops running, although no read ever returned
zero bytes, refuting that termination happens only on an empty read. -/
theorem claim_C10_counterexample :
    (loopTrace [[128]]).2 ≠ Outcome.starved ∧
    ([] : List Nat) ∉ [[128]] := by decide

/-- Claim C10 as amended: a stream that delivers a zero-byte read makes
the loop stop, and the loop stops (by `break` or by the uncaught decode
exception) exactly when some delivered chunk is empty or invalid; with
only nonempty valid chunks it blocks in `recv` forever. -/
theorem claim_C10_amended_termination (chunks : List (List Nat)) :
    ([] ∈ chunks → (loopTrace chunks).2 ≠ Outcome.starved) ∧
    ((loopTrace chunks).2 ≠ Outcome.starved
      ↔ ∃ c ∈ chunks, c = [] ∨ utf8Decode c = none) := by
  refine ⟨?_, loopTrace_stops_iff chunks⟩
  intro hmem
  exact (loopTrace_stops_iff chunks).mpr ⟨[], hmem, Or.inl rfl⟩

theorem claim_C10_amended_witness :
    (loopTrace [[]]).2 ≠ Outcome.starved :=
  (claim_C10_amended_termination [[]]).1 (by decide)

end MiniXmpp
